import Mathlib

/-!
Verification of the `go-cache-archive` storage engine (a persistent,
fixed-record, disk-backed ring buffer) against its specification.

The Go sources are shallowly embedded: machine integers (`int64`,
`uint64`, `uint32`) become `Int`/`Nat` with explicit `% 2 ^ 64` where Go
overflow semantics matter, byte stores become functions `Nat → Nat`
together with an explicit file length, and every fallible Go function
returns `Except GErr _` (with a dedicated constructor, `GErr.panicOOB`,
for a Go slice-bounds runtime panic on the memory-mapped path).

The file first develops the CRC-32 (IEEE, reflected — exactly the
algorithm of Go's `hash/crc32.ChecksumIEEE`) together with the
injectivity facts needed for the corruption-detection claims, then the
engine model (`cache.go`, `head_tail.go`, `buffer.go`, `options.go`,
`stats.go`, and the persisted-config guard `verifyOrWriteConfig`), and
finally one theorem per specification claim.
-/

set_option maxHeartbeats 1000000

namespace GoCacheArchive

/-! ## Little-endian 32-bit codec (`encoding/binary.LittleEndian`) -/

/-- Model of `binary.LittleEndian.PutUint32`: the four bytes, least
significant first, of a 32-bit value. -/
def le32enc (x : Nat) : List Nat :=
  [x % 256, x / 256 % 256, x / 65536 % 256, x / 16777216 % 256]

/-- Model of `binary.LittleEndian.Uint32` applied to the first four bytes
of a buffer. -/
def le32dec : List Nat → Nat
  | a :: b :: c :: d :: _ => a + 256 * (b + 256 * (c + 256 * d))
  | _ => 0

theorem le32dec_le32enc {x : Nat} (h : x < 2 ^ 32) : le32dec (le32enc x) = x := by
  simp only [le32enc, le32dec]
  omega

theorem le32dec_le32enc_append {x : Nat} (r : List Nat) (h : x < 2 ^ 32) :
    le32dec (le32enc x ++ r) = x := by
  simp only [le32enc, List.cons_append, List.nil_append, le32dec]
  omega

theorem le32enc_length (x : Nat) : (le32enc x).length = 4 := rfl

/-! ## CRC-32 (IEEE polynomial, reflected form, as in Go's `hash/crc32`) -/

/-- Reversed IEEE CRC-32 polynomial (Go `crc32.IEEE` table generator). -/
def crcPoly : Nat := 0xEDB88320

/-- One bit-step of the reflected CRC-32: shift right, conditionally xor
the polynomial (the table-driven Go code computes eight of these per
byte). -/
def crcRound (s : Nat) : Nat :=
  (s / 2) ^^^ (if s % 2 = 1 then crcPoly else 0)

/-- Absorb one byte into the running CRC state: xor it in, then run eight
bit-steps. -/
def crcStep (s b : Nat) : Nat :=
  crcRound^[8] (s ^^^ b)

/-- Fold a byte list into the CRC state. -/
def crcFold (s : Nat) (l : List Nat) : Nat :=
  l.foldl crcStep s

/-- Model of `crc32.ChecksumIEEE`: pre- and post-condition the state with
`0xFFFFFFFF`. -/
def crc32 (l : List Nat) : Nat :=
  crcFold 0xFFFFFFFF l ^^^ 0xFFFFFFFF

/-- Explicit inverse of `crcRound` on 32-bit states: the top bit of the
output tells whether the polynomial was xored in (the polynomial has bit
31 set while the shifted state does not). -/
def crcRoundInv (t : Nat) : Nat :=
  if t < 2 ^ 31 then 2 * t else 2 * (t ^^^ crcPoly) + 1

theorem crcRound_lt {s : Nat} (h : s < 2 ^ 32) : crcRound s < 2 ^ 32 := by
  have h2 : s / 2 < 2 ^ 32 := by omega
  unfold crcRound
  split
  · exact Nat.xor_lt_two_pow h2 (by decide)
  · simpa using h2

theorem xor_poly_not_lt {a : Nat} (h : a < 2 ^ 31) : ¬ a ^^^ crcPoly < 2 ^ 31 := by
  intro hlt
  have h1 : (a ^^^ crcPoly).testBit 31 = false := Nat.testBit_lt_two_pow hlt
  rw [Nat.testBit_xor, Nat.testBit_lt_two_pow h] at h1
  have h2 : crcPoly.testBit 31 = true := by decide
  rw [h2] at h1
  simp at h1

theorem crcRoundInv_crcRound {s : Nat} (h : s < 2 ^ 32) :
    crcRoundInv (crcRound s) = s := by
  have h2 : s / 2 < 2 ^ 31 := by omega
  rcases Nat.mod_two_eq_zero_or_one s with hp | hp
  · have hcond : ¬ s % 2 = 1 := by omega
    simp only [crcRound, if_neg hcond, Nat.xor_zero, crcRoundInv, if_pos h2]
    omega
  · simp only [crcRound, if_pos hp, crcRoundInv, if_neg (xor_poly_not_lt h2),
      Nat.xor_cancel_right]
    omega

theorem crcRound_inj {a b : Nat} (ha : a < 2 ^ 32) (hb : b < 2 ^ 32)
    (h : crcRound a = crcRound b) : a = b := by
  rw [← crcRoundInv_crcRound ha, ← crcRoundInv_crcRound hb, h]

theorem crcIter_lt {n s : Nat} (h : s < 2 ^ 32) : crcRound^[n] s < 2 ^ 32 := by
  induction n generalizing s with
  | zero => simpa using h
  | succ n ih =>
    rw [Function.iterate_succ_apply]
    exact ih (crcRound_lt h)

theorem crcIter_inj {n a b : Nat} (ha : a < 2 ^ 32) (hb : b < 2 ^ 32)
    (h : crcRound^[n] a = crcRound^[n] b) : a = b := by
  induction n generalizing a b with
  | zero => simpa using h
  | succ n ih =>
    rw [Function.iterate_succ_apply, Function.iterate_succ_apply] at h
    exact crcRound_inj ha hb (ih (crcRound_lt ha) (crcRound_lt hb) h)

theorem crcStep_lt {s b : Nat} (hs : s < 2 ^ 32) (hb : b < 2 ^ 32) :
    crcStep s b < 2 ^ 32 :=
  crcIter_lt (Nat.xor_lt_two_pow hs hb)

theorem crcStep_inj_state {s₁ s₂ b : Nat} (h1 : s₁ < 2 ^ 32) (h2 : s₂ < 2 ^ 32)
    (hb : b < 2 ^ 32) (h : crcStep s₁ b = crcStep s₂ b) : s₁ = s₂ := by
  have hx := crcIter_inj (Nat.xor_lt_two_pow h1 hb) (Nat.xor_lt_two_pow h2 hb) h
  have hc := congrArg (fun z => z ^^^ b) hx
  simpa [Nat.xor_cancel_right] using hc

theorem crcStep_inj_byte {s b₁ b₂ : Nat} (hs : s < 2 ^ 32) (h1 : b₁ < 2 ^ 32)
    (h2 : b₂ < 2 ^ 32) (h : crcStep s b₁ = crcStep s b₂) : b₁ = b₂ := by
  have hx := crcIter_inj (Nat.xor_lt_two_pow hs h1) (Nat.xor_lt_two_pow hs h2) h
  have hc := congrArg (fun z => s ^^^ z) hx
  simpa [Nat.xor_cancel_left] using hc

theorem crcFold_lt {l : List Nat} {s : Nat} (hs : s < 2 ^ 32)
    (hl : ∀ b ∈ l, b < 2 ^ 32) : crcFold s l < 2 ^ 32 := by
  induction l generalizing s with
  | nil => simpa [crcFold] using hs
  | cons b bs ih =>
    have hb : b < 2 ^ 32 := hl b (by simp)
    have := ih (s := crcStep s b) (crcStep_lt hs hb) (fun x hx => hl x (by simp [hx]))
    simpa [crcFold] using this

theorem crcFold_ne_state {l : List Nat} {s₁ s₂ : Nat} (h1 : s₁ < 2 ^ 32)
    (h2 : s₂ < 2 ^ 32) (hl : ∀ b ∈ l, b < 2 ^ 32) (hne : s₁ ≠ s₂) :
    crcFold s₁ l ≠ crcFold s₂ l := by
  induction l generalizing s₁ s₂ with
  | nil => simpa [crcFold] using hne
  | cons b bs ih =>
    have hb : b < 2 ^ 32 := hl b (by simp)
    have htail : ∀ x ∈ bs, x < 2 ^ 32 := fun x hx => hl x (by simp [hx])
    have hstep : crcStep s₁ b ≠ crcStep s₂ b := fun h =>
      hne (crcStep_inj_state h1 h2 hb h)
    have := ih (crcStep_lt h1 hb) (crcStep_lt h2 hb) htail hstep
    simpa [crcFold] using this

theorem crcFold_ne_set {l : List Nat} {k v s : Nat} (hs : s < 2 ^ 32)
    (hl : ∀ b ∈ l, b < 2 ^ 32) (hv : v < 2 ^ 32) (hk : k < l.length)
    (hne : v ≠ l[k]) : crcFold s (l.set k v) ≠ crcFold s l := by
  induction l generalizing k s with
  | nil => simp at hk
  | cons b bs ih =>
    have hb : b < 2 ^ 32 := hl b (by simp)
    have htail : ∀ x ∈ bs, x < 2 ^ 32 := fun x hx => hl x (by simp [hx])
    cases k with
    | zero =>
      have hbne : v ≠ b := by simpa using hne
      have hstep : crcStep s v ≠ crcStep s b := fun h =>
        hbne (crcStep_inj_byte hs hv hb h)
      have := crcFold_ne_state (crcStep_lt hs hv) (crcStep_lt hs hb) htail hstep
      simpa [crcFold] using this
    | succ k =>
      have hk' : k < bs.length := by simpa using hk
      have hne' : v ≠ bs[k] := by simpa using hne
      have := ih (s := crcStep s b) (crcStep_lt hs hb) htail hk' hne'
      simpa [crcFold] using this

theorem crc32_lt {l : List Nat} (hl : ∀ b ∈ l, b < 2 ^ 32) : crc32 l < 2 ^ 32 :=
  Nat.xor_lt_two_pow (crcFold_lt (by decide) hl) (by decide)

/-- CRC-32 detects every single-byte change: replacing one byte of a
payload with a different value changes the checksum. -/
theorem crc32_ne_set {l : List Nat} {k v : Nat} (hl : ∀ b ∈ l, b < 2 ^ 32)
    (hv : v < 2 ^ 32) (hk : k < l.length) (hne : v ≠ l[k]) :
    crc32 (l.set k v) ≠ crc32 l := by
  intro h
  have h2 : crcFold 0xFFFFFFFF (l.set k v) = crcFold 0xFFFFFFFF l := by
    have hc := congrArg (fun z => z ^^^ 0xFFFFFFFF) h
    simpa [crc32, Nat.xor_cancel_right] using hc
  exact crcFold_ne_set (by decide) hl hv hk hne h2

/-! ## Byte stores (file contents / memory-mapped regions) -/

/-- Write the bytes of `l` into the store `d` starting at byte offset
`off` (the effect of Go's `copy(dst[off:off+len(l)], l)` or
`file.WriteAt(l, off)` on the underlying bytes). -/
def writeBytes (d : Nat → Nat) (off : Nat) (l : List Nat) : Nat → Nat :=
  fun i => if off ≤ i ∧ i < off + l.length then l.getD (i - off) 0 else d i

/-- Read `n` bytes from the store `d` starting at byte offset `off`. -/
def readBytes (d : Nat → Nat) (off n : Nat) : List Nat :=
  (List.range n).map (fun j => d (off + j))

theorem readBytes_length (d : Nat → Nat) (off n : Nat) :
    (readBytes d off n).length = n := by
  simp [readBytes]

theorem readBytes_writeBytes (d : Nat → Nat) (off : Nat) (l : List Nat) :
    readBytes (writeBytes d off l) off l.length = l := by
  apply List.ext_getElem (by simp [readBytes])
  intro i h1 h2
  have hi : i < l.length := by simpa [readBytes] using h2
  simp only [readBytes, List.getElem_map, List.getElem_range, writeBytes]
  rw [if_pos ⟨by omega, by omega⟩]
  have : off + i - off = i := by omega
  rw [this, List.getD_eq_getElem l 0 hi]

theorem writeBytes_apply_in (d : Nat → Nat) (off : Nat) (l : List Nat) {j : Nat}
    (hj : j < l.length) : writeBytes d off l (off + j) = l.getD j 0 := by
  simp only [writeBytes]
  rw [if_pos ⟨by omega, by omega⟩]
  congr 1
  omega

theorem readBytes_update (d : Nat → Nat) (off n j v : Nat) (hj : j < n) :
    readBytes (Function.update d (off + j) v) off n = (readBytes d off n).set j v := by
  apply List.ext_getElem (by simp [readBytes])
  intro i h1 h2
  have hi : i < n := by simpa [readBytes] using h1
  simp only [readBytes, List.getElem_map, List.getElem_range, List.getElem_set,
    Function.update_apply]
  by_cases hij : i = j
  · subst hij
    simp
  · rw [if_neg (by omega), if_neg (by omega)]

/-! ## Data model (`cache.go`, `options.go`, `shard.go` section of `buffer.go`) -/

/-- Error outcomes of the modelled Go functions.  Each constructor stands
for one distinct error value produced by the source (the Go errors are
`fmt.Errorf` strings; constructors keep them apart), except `panicOOB`,
which models a Go slice-bounds runtime panic on the memory-mapped code
path, and the last three, which model constructor failures. -/
inductive GErr where
  | outOfRange
  | payloadSize
  | shardRange
  | shardNotFound
  | bulkRange
  | bulkPayload
  | corrupt
  | ioError
  | panicOOB
  | invalidRecordSize
  | invalidRange
  | truncateFail
  deriving DecidableEq

/-- One shard: the Go `shard` struct (`size`, `offset` as `int64`) plus
the observable bytes of its backing file (`data`) and the file's current
length in bytes (`len`).  When the engine uses mmap, `data`/`len` stand
for the mapped region, whose length never changes after construction. -/
structure ShardSt where
  size : Int
  offset : Int
  data : Nat → Nat
  len : Nat

/-- The Go `CacheOptions` struct (layout-relevant fields). -/
structure CacheOptions where
  minIDAlloc : Int
  maxIDAlloc : Int
  useMmap : Bool
  shardCount : Int
  shardSize : Int
  recordSize : Int
  bufferPoolSize : Int
  prefetchSize : Int

/-- The Go `persistedConfig` struct stored in the `.cfg` sidecar. -/
structure PersistedConfig where
  recordSize : Int
  minIDAlloc : Int
  maxIDAlloc : Int
  shardCount : Int
  deriving DecidableEq

/-- The `RingBufferCache` struct: shards, layout numbers, ring-buffer
head/tail (`uint64` values, held as `Nat < 2 ^ 64` in reachable states)
and the hit/miss counters.  Locks, the buffer pool and the prefetch map
are concurrency/allocation machinery with no effect on the modelled
values and are omitted. -/
structure CacheState where
  shards : List ShardSt
  size : Int
  record : Nat
  useMmap : Bool
  prefetchSize : Int
  minIDAlloc : Int
  maxIDAlloc : Nat
  head : Nat
  tail : Nat
  statHits : Nat
  statMisses : Nat

/-- Go `c.diskRec`, always `c.record + 4` (payload + 4-byte CRC): the
constructor computes both from the same local `recordSize`. -/
def CacheState.diskRec (c : CacheState) : Nat := c.record + 4

/-- Conversion `uint64(i)` of a Go `int64` value. -/
def uint64OfInt (i : Int) : Nat := (i % (2 : Int) ^ 64).toNat

/-- Conversion `int64(n)` of a Go `uint64` value. -/
def int64OfUInt64 (n : Nat) : Int :=
  if n < 2 ^ 63 then (n : Int) else (n : Int) - 2 ^ 64

/-- Go `absToRel`: translate an absolute id to a 1-based relative
position, or fail when the id is outside `[minIDAlloc, maxIDAlloc]`. -/
def absToRel (c : CacheState) (id : Int) : Except GErr Int :=
  if id < c.minIDAlloc ∨ id > int64OfUInt64 c.maxIDAlloc then .error .outOfRange
  else .ok (id - c.minIDAlloc + 1)

/-- Predicate of the `findShard` linear scan: the shard's interval
`(offset, offset + size]` contains `rel`. -/
def shardContains (rel : Int) (s : ShardSt) : Bool :=
  rel > s.offset && rel ≤ s.offset + s.size

/-- Go `findShard`: bounds-check `rel` against `c.size`, then linearly
scan the shards; returns the index of the first shard whose interval
contains `rel` (the Go function returns the shard pointer and
`rel - offset`; `Write`/`Read` use only the shard, which the index
determines). -/
def findShard (c : CacheState) (rel : Int) : Except GErr Nat :=
  if rel < 1 ∨ rel > c.size then .error .shardRange
  else match c.shards.findIdx? (shardContains rel) with
    | some i => .ok i
    | none => .error .shardNotFound

/-- Go `Write`: validate the id and the payload length, locate the
shard, then store `CRC32(payload) ++ payload` at byte offset
`(rel − 1) × diskRec` — the offset the source computes, which is
relative to the whole slot array, not to the found shard.  On the mmap
path an out-of-bounds copy is a slice-bounds panic (`panicOOB`); on the
file path `WriteAt` extends the file.  `flush` only forces
msync/fsync and does not change the stored bytes. -/
def Write (c : CacheState) (id : Int) (payload : List Nat) (flush : Bool) :
    Except GErr CacheState :=
  match absToRel c id with
  | .error e => .error e
  | .ok rel =>
    if payload.length ≠ c.record then .error .payloadSize
    else match findShard c rel with
      | .error e => .error e
      | .ok i =>
        match c.shards[i]? with
        | none => .error .shardNotFound
        | some s =>
          let offset := (rel - 1).toNat * c.diskRec
          let buf := le32enc (crc32 payload) ++ payload
          let sM : ShardSt := { s with data := writeBytes s.data offset buf }
          let sF : ShardSt := { s with data := writeBytes s.data offset buf,
                                       len := max s.len (offset + c.diskRec) }
          if c.useMmap then
            if offset + c.diskRec ≤ s.len then
              .ok { c with shards := c.shards.set i sM }
            else .error .panicOOB
          else
            .ok { c with shards := c.shards.set i sF }

/-- Checksum verification and stats update shared by both `Read` I/O
paths (the tail of Go `Read` after the slot bytes are in `buf`). -/
def readCheck (c : CacheState) (buf : List Nat) :
    Except GErr (List Nat) × CacheState :=
  let storedCRC := le32dec buf
  let payload := buf.drop 4
  if crc32 payload ≠ storedCRC then
    (.error .corrupt, { c with statMisses := c.statMisses + 1 })
  else
    (.ok payload, { c with statHits := c.statHits + 1 })

/-- Go `Read`: validate and locate as in `Write`, read the slot bytes at
the same (engine-relative) byte offset, verify the checksum, and count a
hit or a miss.  On the mmap path an out-of-bounds slice is a panic; on
the file path a short `ReadAt` is an I/O error that counts a miss.  The
asynchronous prefetch dispatch does not change the returned value or the
synchronous state and is not modelled. -/
def Read (c : CacheState) (id : Int) : Except GErr (List Nat) × CacheState :=
  match absToRel c id with
  | .error e => (.error e, c)
  | .ok rel =>
    match findShard c rel with
    | .error e => (.error e, c)
    | .ok i =>
      match c.shards[i]? with
      | none => (.error .shardNotFound, c)
      | some s =>
        let offset := (rel - 1).toNat * c.diskRec
        if c.useMmap then
          if offset + c.diskRec ≤ s.len then
            readCheck c (readBytes s.data offset c.diskRec)
          else (.error .panicOOB, c)
        else
          if offset + c.diskRec ≤ s.len then
            readCheck c (readBytes s.data offset c.diskRec)
          else (.error .ioError, { c with statMisses := c.statMisses + 1 })

/-- Loop body of Go `BulkWrite`: write each payload at consecutive ids,
passing `flush && i == len-1` to `Write`; on error stop, keeping the
writes already performed. -/
def bulkWriteLoop (startID : Int) (flush : Bool) (n : Nat) :
    CacheState → List (List Nat) → Nat → Option GErr × CacheState
  | c, [], _ => (none, c)
  | c, p :: rest, i =>
    match Write c (startID + (i : Int)) p (flush && (i == n - 1)) with
    | .error e => (some e, c)
    | .ok c2 => bulkWriteLoop startID flush n c2 rest (i + 1)

/-- Go `BulkWrite`: bounds-check the id range against `c.size`, check
every payload's length, then write sequentially. -/
def BulkWrite (c : CacheState) (startID : Int) (payloads : List (List Nat))
    (flush : Bool) : Option GErr × CacheState :=
  if startID < 1 ∨ startID + (payloads.length : Int) - 1 > c.size then
    (some .bulkRange, c)
  else if payloads.any (fun p => p.length != c.record) then
    (some .bulkPayload, c)
  else bulkWriteLoop startID flush payloads.length c payloads 0

/-- Sequential bulk write as the spec words it: write each payload at
consecutive identifiers, requesting durability only on the last one.
Used to state the refinement part of the BulkWrite claim. -/
def bulkWriteSpecLoop (flush : Bool) :
    CacheState → Int → List (List Nat) → Option GErr × CacheState
  | c, _, [] => (none, c)
  | c, id, [p] =>
    match Write c id p flush with
    | .error e => (some e, c)
    | .ok c2 => (none, c2)
  | c, id, p :: rest =>
    match Write c id p false with
    | .error e => (some e, c)
    | .ok c2 => bulkWriteSpecLoop flush c2 (id + 1) rest

/-! ## Head/tail and advance-head (`head_tail.go`) -/

/-- Effective maximum id used by `WriteHead` (`c.maxIDAlloc`, falling
back to `uint64(c.size)` when it is zero). -/
def whEffMax (c : CacheState) : Nat :=
  if c.maxIDAlloc = 0 then uint64OfInt c.size else c.maxIDAlloc

/-- Go `min := uint64(c.minIDAlloc)` inside `WriteHead`. -/
def whMin (c : CacheState) : Nat := uint64OfInt c.minIDAlloc

/-- The id `WriteHead` writes: `head + 1` (with `uint64` wraparound),
reset to the minimum when it exceeds the effective maximum. -/
def whNext (c : CacheState) : Nat :=
  let next0 := (c.head + 1) % 2 ^ 64
  if next0 > whEffMax c then whMin c else next0

/-- The tail value `WriteHead` stores: `min + 1` on a wrap, otherwise —
once the tail has left the minimum — `next + 1` wrapping to the minimum
past the maximum, otherwise unchanged. -/
def whTailNew (c : CacheState) : Nat :=
  if whNext c = whMin c then (whMin c + 1) % 2 ^ 64
  else if c.tail ≠ whMin c then
    let t := (whNext c + 1) % 2 ^ 64
    if t > whEffMax c then whMin c else t
  else c.tail

/-- The head/tail mutation `WriteHead` performs before calling `Write`. -/
def whAdvance (c : CacheState) : CacheState :=
  { c with head := whNext c, tail := whTailNew c }

/-- Go `WriteHead` (the spec's AdvanceHead): advance head and tail, then
`Write` at the new id; on a `Write` error return id `0` with the error
and the already-advanced state.  `saveMeta` (on `flush`) writes the
16-byte sidecar and is assumed to succeed. -/
def WriteHead (c : CacheState) (payload : List Nat) (flush : Bool) :
    (Int × Option GErr) × CacheState :=
  let c1 := whAdvance c
  match Write c1 (int64OfUInt64 (whNext c)) payload flush with
  | .error e => ((0, some e), c1)
  | .ok c2 => ((int64OfUInt64 (whNext c), none), c2)

/-- Go `Head()`: the current head as an `int64`. -/
def Head (c : CacheState) : Int := int64OfUInt64 c.head

/-- Go `Tail()`: the current tail as an `int64`. -/
def Tail (c : CacheState) : Int := int64OfUInt64 c.tail

/-- Iterated `WriteHead` calls (payload, flush per call), final state. -/
def writeHeadSeq (c : CacheState) : List (List Nat × Bool) → CacheState
  | [] => c
  | pf :: rest => writeHeadSeq ((WriteHead c pf.1 pf.2).2) rest

/-- Iterated `WriteHead` calls, the list of returned ids. -/
def writeHeadRuns (c : CacheState) : List (List Nat × Bool) → List Int
  | [] => []
  | pf :: rest =>
    ((WriteHead c pf.1 pf.2).1.1) :: writeHeadRuns ((WriteHead c pf.1 pf.2).2) rest

/-! ## Constructor and config guard (`cache.go`, `verifyOrWriteConfig`) -/

/-- Go `newPersistedConfig`. -/
def newPersistedConfig (opts : CacheOptions) : PersistedConfig :=
  { recordSize := opts.recordSize, minIDAlloc := opts.minIDAlloc,
    maxIDAlloc := opts.maxIDAlloc, shardCount := opts.shardCount }

/-- Go `verifyOrWriteConfig`: when a persisted `.cfg` exists, overwrite
the four layout fields of the caller's options with the persisted
values; otherwise the options are written out unchanged.  (File-system
errors are not modelled.) -/
def verifyOrWriteConfig (stored : Option PersistedConfig) (opts : CacheOptions) :
    CacheOptions :=
  match stored with
  | none => opts
  | some pc =>
    { opts with recordSize := pc.recordSize, minIDAlloc := pc.minIDAlloc,
                maxIDAlloc := pc.maxIDAlloc, shardCount := pc.shardCount }

/-- Shard-building loop of the constructor, counting down the remaining
shards (`n = 0` after the last): each shard gets `shardSize` slots
except the last, which gets `size − offset`; its file is truncated to
`slots × diskRec` bytes (zero-filled), failing on a negative length. -/
def buildShards (shardSize diskRec size : Int) :
    Nat → Int → Except GErr (List ShardSt)
  | 0, _ => .ok []
  | n + 1, offset =>
    let current := if n = 0 then size - offset else shardSize
    let diskSize := current * diskRec
    if diskSize < 0 then .error .truncateFail
    else
      match buildShards shardSize diskRec size n (offset + current) with
      | .error e => .error e
      | .ok rest =>
        .ok ({ size := current, offset := offset,
               data := fun _ => 0, len := diskSize.toNat } :: rest)

/-- Go `NewRingBufferCacheWithOptions`.  `storedCfg` is the parsed `.cfg`
sidecar if present, `storedMeta` the parsed 16-byte `.meta` sidecar if
present and readable.  Note the source computes `size`, `recordSize`,
`diskRec` and `shardSize` from the caller's options *before*
`verifyOrWriteConfig` overrides the options with the persisted values;
only the shard count used by the build loop and the `minIDAlloc` /
`maxIDAlloc` fields come from the overridden options. -/
def NewRingBufferCacheWithOptions (opts0 : CacheOptions)
    (storedCfg : Option PersistedConfig) (storedMeta : Option (Nat × Nat)) :
    Except GErr CacheState :=
  if opts0.recordSize ≤ 0 then .error .invalidRecordSize
  else if opts0.maxIDAlloc ≤ opts0.minIDAlloc then .error .invalidRange
  else
    let size := opts0.maxIDAlloc - opts0.minIDAlloc + 1
    let recordSize := opts0.recordSize
    let diskRec := recordSize + 4
    let opts1 := if opts0.shardCount ≤ 0 then { opts0 with shardCount := 1 } else opts0
    let shardSize :=
      if opts1.shardCount > 1 then
        size / opts1.shardCount + (if size % opts1.shardCount ≠ 0 then 1 else 0)
      else size
    let opts2 := verifyOrWriteConfig storedCfg opts1
    match buildShards shardSize diskRec size opts2.shardCount.toNat 0 with
    | .error e => .error e
    | .ok shards =>
      let base : CacheState :=
        { shards := shards, size := size, record := recordSize.toNat,
          useMmap := opts2.useMmap, prefetchSize := opts2.prefetchSize,
          minIDAlloc := opts2.minIDAlloc, maxIDAlloc := uint64OfInt opts2.maxIDAlloc,
          head := 0, tail := 0, statHits := 0, statMisses := 0 }
      match storedMeta with
      | some ht => .ok { base with head := ht.1, tail := ht.2 }
      | none =>
        let start0 := uint64OfInt base.minIDAlloc
        let start := if start0 = 0 then 1 else start0
        .ok { base with head := start - 1, tail := start }

/-- Hit/miss counters of Go `GetStats` (the derived `HitRatio` float is
not modelled). -/
structure Stats where
  hits : Nat
  misses : Nat

/-- Go `GetStats`. -/
def GetStats (c : CacheState) : Stats :=
  { hits := c.statHits, misses := c.statMisses }

/-- Extract the state of a successful constructor/`Write` result
(default otherwise); used to name concrete states in closed theorems. -/
def getOk (e : Except GErr CacheState) (d : CacheState) : CacheState :=
  match e with
  | .ok s => s
  | .error _ => d

/-- Check whether an `Except` result is `ok`. -/
def isOkE (e : Except GErr CacheState) : Bool :=
  match e with
  | .ok _ => true
  | .error _ => false

/-- Cache state with no shards, used only as the `getOk` default. -/
def dummyCache : CacheState :=
  { shards := [], size := 0, record := 0, useMmap := false, prefetchSize := 0,
    minIDAlloc := 0, maxIDAlloc := 0, head := 0, tail := 0,
    statHits := 0, statMisses := 0 }

/-- Byte at position `pos` of shard `i` of the cache (0 if absent). -/
def slotByte (c : CacheState) (i pos : Nat) : Nat :=
  match c.shards[i]? with
  | some s => s.data pos
  | none => 0

/-- The id-offset field of shard `i` (0 if absent). -/
def shardOffsetAt (c : CacheState) (i : Nat) : Int :=
  match c.shards[i]? with
  | some s => s.offset
  | none => 0

/-- The file length of shard `i` (0 if absent). -/
def shardLenAt (c : CacheState) (i : Nat) : Nat :=
  match c.shards[i]? with
  | some s => s.len
  | none => 0

/-- Mutate a single byte of shard `i` of the cache on disk: the effect of
an external process overwriting byte `pos` of the shard file with `v`. -/
def corruptByte (c : CacheState) (i pos v : Nat) : CacheState :=
  match c.shards[i]? with
  | some s =>
    { c with shards := c.shards.set i { s with data := Function.update s.data pos v } }
  | none => c

/-! ## Inversion and stability lemmas -/

theorem findIdx?_congr {α : Type} {p : α → Bool} (l₁ : List α) :
    ∀ (l₂ : List α) (start : Nat), l₁.length = l₂.length →
      (∀ j (h1 : j < l₁.length) (h2 : j < l₂.length), p l₁[j] = p l₂[j]) →
      l₁.findIdx? p start = l₂.findIdx? p start := by
  induction l₁ with
  | nil =>
    intro l₂ start h hp
    cases l₂ with
    | nil => rfl
    | cons b t => simp at h
  | cons a t ih =>
    intro l₂ start h hp
    cases l₂ with
    | nil => simp at h
    | cons b t₂ =>
      have h0 : p a = p b := hp 0 (by simp) (by simp)
      rw [List.findIdx?_cons, List.findIdx?_cons, h0]
      by_cases hb : p b = true
      · simp [hb]
      · rw [Bool.not_eq_true] at hb
        simp only [hb, cond_false]
        exact ih t₂ (start + 1) (by simpa using h)
          (fun j hj1 hj2 => by
            have := hp (j + 1) (by simpa using Nat.succ_lt_succ hj1)
              (by simpa using Nat.succ_lt_succ hj2)
            simpa using this)

theorem findShard_set {c : CacheState} {i : Nat} {s s' : ShardSt} (rel : Int)
    (hs : c.shards[i]? = some s) (hsz : s'.size = s.size)
    (hof : s'.offset = s.offset) :
    findShard { c with shards := c.shards.set i s' } rel = findShard c rel := by
  have hi : i < c.shards.length := by
    by_contra hcon
    rw [List.getElem?_eq_none (by omega)] at hs
    exact absurd hs (by simp)
  have hsi : c.shards[i] = s := by
    have := List.getElem?_eq_some_iff.mp hs
    obtain ⟨h1, h2⟩ := this
    exact h2
  unfold findShard
  simp only
  rw [findIdx?_congr (c.shards.set i s') c.shards 0 (by simp)]
  intro j h1 h2
  rw [List.getElem_set]
  by_cases hij : i = j
  · subst hij
    rw [if_pos rfl, hsi]
    simp [shardContains, hsz, hof]
  · rw [if_neg hij]



theorem Write_ok_spec {c c' : CacheState} {id : Int} {p : List Nat} {fl : Bool}
    (h : Write c id p fl = .ok c') :
    ∃ rel i s s',
      absToRel c id = .ok rel ∧ p.length = c.record ∧ findShard c rel = .ok i ∧
      c.shards[i]? = some s ∧
      c' = { c with shards := c.shards.set i s' } ∧
      s'.size = s.size ∧ s'.offset = s.offset ∧
      s'.data = writeBytes s.data ((rel - 1).toNat * c.diskRec)
        (le32enc (crc32 p) ++ p) ∧
      (rel - 1).toNat * c.diskRec + c.diskRec ≤ s'.len := by
  unfold Write at h
  cases habs : absToRel c id with
  | error e => rw [habs] at h; exact absurd h (by simp)
  | ok rel =>
    rw [habs] at h
    dsimp only at h
    by_cases hlen : p.length ≠ c.record
    · rw [if_pos hlen] at h; exact absurd h (by simp)
    · rw [if_neg hlen] at h
      rw [Classical.not_not] at hlen
      cases hfs : findShard c rel with
      | error e => rw [hfs] at h; exact absurd h (by simp)
      | ok i =>
        rw [hfs] at h
        dsimp only at h
        cases hget : c.shards[i]? with
        | none => rw [hget] at h; exact absurd h (by simp)
        | some s =>
          rw [hget] at h
          dsimp only at h
          by_cases hmm : c.useMmap
          · rw [if_pos hmm] at h
            by_cases hb : (rel - 1).toNat * c.diskRec + c.diskRec ≤ s.len
            · rw [if_pos hb] at h
              refine ⟨rel, i, s, _, rfl, hlen, hfs, hget, (Except.ok.inj h).symm,
                rfl, rfl, rfl, hb⟩
            · rw [if_neg hb] at h; exact absurd h (by simp)
          · rw [if_neg hmm] at h
            refine ⟨rel, i, s, _, rfl, hlen, hfs, hget, (Except.ok.inj h).symm,
              rfl, rfl, rfl, by simp⟩



theorem Read_after_Write {c c' : CacheState} {id : Int} {p : List Nat} {fl : Bool}
    (hp : ∀ b ∈ p, b < 256) (hw : Write c id p fl = .ok c') :
    (Read c' id).1 = .ok p := by
  obtain ⟨rel, i, s, s', habs, hlen, hfs, hget, hc', hsz, hof, hdata, hfits⟩ :=
    Write_ok_spec hw
  subst hc'
  have hp32 : ∀ b ∈ p, b < 2 ^ 32 := fun b hb => lt_trans (hp b hb) (by norm_num)
  have hcrc : crc32 p < 2 ^ 32 := crc32_lt hp32
  have hi : i < c.shards.length := by
    by_contra hcon
    rw [List.getElem?_eq_none (by omega)] at hget
    exact absurd hget (by simp)
  have hbuflen : (le32enc (crc32 p) ++ p).length = c.diskRec := by
    simp [le32enc, hlen, CacheState.diskRec]
  unfold Read
  rw [show absToRel { c with shards := c.shards.set i s' } id = absToRel c id from rfl,
    habs]
  dsimp only
  rw [show findShard { c with shards := c.shards.set i s' } rel = findShard c rel from
    findShard_set rel hget hsz hof, hfs]
  dsimp only
  have hdisk : ({ c with shards := c.shards.set i s' } : CacheState).diskRec =
      c.diskRec := rfl
  rw [List.getElem?_set_self hi]
  dsimp only
  rw [hdisk]
  have hread : readBytes s'.data ((rel - 1).toNat * c.diskRec) c.diskRec =
      le32enc (crc32 p) ++ p := by
    rw [hdata, ← hbuflen, readBytes_writeBytes]
  have hcheck : readCheck { c with shards := c.shards.set i s' }
      (le32enc (crc32 p) ++ p) =
      (.ok p, { { c with shards := c.shards.set i s' } with statHits := c.statHits + 1 }) := by
    unfold readCheck
    rw [le32dec_le32enc_append p hcrc]
    rw [List.drop_left' (le32enc_length (crc32 p))]
    simp
  by_cases hmm : ({ c with shards := c.shards.set i s' } : CacheState).useMmap
  · rw [if_pos hmm, if_pos hfits, hread, hcheck]
  · rw [if_neg hmm, if_pos hfits, hread, hcheck]



theorem Read_after_corrupt {c c' : CacheState} {id : Int} {p : List Nat} {fl : Bool}
    {rel : Int} {i j v : Nat}
    (hp : ∀ b ∈ p, b < 256) (hv : v < 256)
    (hw : Write c id p fl = .ok c')
    (habs : absToRel c id = .ok rel) (hfs : findShard c rel = .ok i)
    (hj4 : 4 ≤ j) (hjd : j < c.diskRec)
    (hne : v ≠ slotByte c' i ((rel - 1).toNat * c.diskRec + j)) :
    (Read (corruptByte c' i ((rel - 1).toNat * c.diskRec + j) v) id).1 =
      .error .corrupt := by
  obtain ⟨rel', i', s, s', habs', hlen, hfs', hget, hc', hsz, hof, hdata, hfits⟩ :=
    Write_ok_spec hw
  rw [habs] at habs'
  cases Except.ok.inj habs'
  rw [hfs] at hfs'
  cases Except.ok.inj hfs'
  subst hc'
  have hp32 : ∀ b ∈ p, b < 2 ^ 32 := fun b hb => lt_trans (hp b hb) (by norm_num)
  have hv32 : v < 2 ^ 32 := lt_trans hv (by norm_num)
  have hcrc : crc32 p < 2 ^ 32 := crc32_lt hp32
  have hi : i < c.shards.length := by
    by_contra hcon
    rw [List.getElem?_eq_none (by omega)] at hget
    exact absurd hget (by simp)
  have hbuflen : (le32enc (crc32 p) ++ p).length = c.diskRec := by
    simp [le32enc, hlen, CacheState.diskRec]
  obtain ⟨m, rfl⟩ : ∃ m, j = m + 4 := ⟨j - 4, by omega⟩
  have hm : m < p.length := by
    have hdr : c.diskRec = c.record + 4 := rfl
    omega
  set off := (rel - 1).toNat * c.diskRec with hoff
  set s2 : ShardSt := { s' with data := Function.update s'.data (off + (m + 4)) v }
    with hs2
  have hslot : slotByte { c with shards := c.shards.set i s' } i (off + (m + 4)) =
      p[m] := by
    unfold slotByte
    rw [show ({ c with shards := c.shards.set i s' } : CacheState).shards =
      c.shards.set i s' from rfl]
    rw [List.getElem?_set_self hi]
    dsimp only
    rw [hdata]
    rw [writeBytes_apply_in s.data off (le32enc (crc32 p) ++ p)
      (by rw [hbuflen]; omega)]
    rw [List.getD_eq_getElem _ 0 (by rw [hbuflen]; omega)]
    rw [List.getElem_append_right (by simp [le32enc])]
    simp [le32enc]
  have hcb : corruptByte { c with shards := c.shards.set i s' } i (off + (m + 4)) v =
      { c with shards := c.shards.set i s2 } := by
    unfold corruptByte
    rw [List.getElem?_set_self hi]
    dsimp only
    rw [List.set_set, ← hs2]
  rw [hcb]
  unfold Read
  rw [show absToRel { c with shards := c.shards.set i s2 } id = absToRel c id from rfl,
    habs]
  dsimp only
  rw [show findShard { c with shards := c.shards.set i s2 } rel = findShard c rel from
    findShard_set rel hget (by rw [hs2]; exact hsz) (by rw [hs2]; exact hof), hfs]
  dsimp only
  have hdisk : ({ c with shards := c.shards.set i s2 } : CacheState).diskRec =
      c.diskRec := rfl
  rw [List.getElem?_set_self hi]
  dsimp only
  rw [hdisk]
  have hread : readBytes s2.data off c.diskRec =
      (le32enc (crc32 p) ++ p).set (m + 4) v := by
    rw [hs2]
    dsimp only
    rw [readBytes_update s'.data off c.diskRec (m + 4) v (by omega)]
    rw [hdata, ← hbuflen, readBytes_writeBytes]
  have hsetform : (le32enc (crc32 p) ++ p).set (m + 4) v =
      le32enc (crc32 p) ++ p.set m v := by
    rw [List.set_append_right _ _ (by simp [le32enc])]
    simp [le32enc]
  have hcrcne : crc32 (p.set m v) ≠ crc32 p := by
    apply crc32_ne_set hp32 hv32 hm
    intro hvp
    exact hne (by rw [hslot, ← hvp])
  have hcheck : readCheck { c with shards := c.shards.set i s2 }
      (le32enc (crc32 p) ++ p.set m v) =
      (.error .corrupt, { { c with shards := c.shards.set i s2 } with statMisses := c.statMisses + 1 }) := by
    unfold readCheck
    rw [le32dec_le32enc_append _ hcrc]
    rw [List.drop_left' (le32enc_length (crc32 p))]
    rw [if_pos hcrcne]
  have hfits2 : off + c.diskRec ≤ s2.len := by
    rw [hs2]
    exact hfits
  by_cases hmm : ({ c with shards := c.shards.set i s2 } : CacheState).useMmap
  · rw [if_pos hmm, if_pos hfits2, hread, hsetform, hcheck]
  · rw [if_neg hmm, if_pos hfits2, hread, hsetform, hcheck]

/-! ## Stats accounting and head/tail invariant lemmas -/

/-- Hits increment of one `Read` outcome: 1 on success, 0 otherwise. -/
def hitDelta : Except GErr (List Nat) → Nat
  | .ok _ => 1
  | .error _ => 0

/-- Misses increment of one `Read` outcome: 1 on a CRC mismatch or an
I/O error, 0 otherwise. -/
def missDelta : Except GErr (List Nat) → Nat
  | .error .corrupt => 1
  | .error .ioError => 1
  | _ => 0

theorem absToRel_error {c : CacheState} {id : Int} {e : GErr}
    (h : absToRel c id = .error e) : e = .outOfRange := by
  unfold absToRel at h
  split at h
  · exact (Except.error.inj h).symm
  · exact absurd h (by simp)

theorem findShard_error {c : CacheState} {rel : Int} {e : GErr}
    (h : findShard c rel = .error e) : e = .shardRange ∨ e = .shardNotFound := by
  unfold findShard at h
  split at h
  · exact .inl (Except.error.inj h).symm
  · split at h
    · exact absurd h (by simp)
    · exact .inr (Except.error.inj h).symm

theorem readCheck_stats (c : CacheState) (buf : List Nat) :
    (readCheck c buf).2.statHits = c.statHits + hitDelta (readCheck c buf).1 ∧
    (readCheck c buf).2.statMisses = c.statMisses + missDelta (readCheck c buf).1 := by
  unfold readCheck
  dsimp only
  by_cases h : crc32 (buf.drop 4) ≠ le32dec buf
  · rw [if_pos h]
    exact ⟨rfl, rfl⟩
  · rw [if_neg h]
    exact ⟨rfl, rfl⟩

theorem Read_stats (c : CacheState) (id : Int) :
    (Read c id).2.statHits = c.statHits + hitDelta (Read c id).1 ∧
    (Read c id).2.statMisses = c.statMisses + missDelta (Read c id).1 := by
  unfold Read
  cases habs : absToRel c id with
  | error e =>
    cases absToRel_error habs
    exact ⟨rfl, rfl⟩
  | ok rel =>
    dsimp only
    cases hfs : findShard c rel with
    | error e =>
      rcases findShard_error hfs with h | h <;> cases h <;> exact ⟨rfl, rfl⟩
    | ok i =>
      dsimp only
      cases hget : c.shards[i]? with
      | none => exact ⟨rfl, rfl⟩
      | some s =>
        dsimp only
        by_cases hmm : c.useMmap
        · rw [if_pos hmm]
          by_cases hb : (rel - 1).toNat * c.diskRec + c.diskRec ≤ s.len
          · rw [if_pos hb]
            exact readCheck_stats c _
          · rw [if_neg hb]
            exact ⟨rfl, rfl⟩
        · rw [if_neg hmm]
          by_cases hb : (rel - 1).toNat * c.diskRec + c.diskRec ≤ s.len
          · rw [if_pos hb]
            exact readCheck_stats c _
          · rw [if_neg hb]
            exact ⟨rfl, rfl⟩



/-- Invariant of the wrapped phase: head lies in the ring and tail is the
ring successor of head (tail equals the minimum exactly when head equals
the maximum). -/
def tailInv (c : CacheState) : Prop :=
  whMin c ≤ c.head ∧ c.head ≤ whEffMax c ∧
  c.tail = (if c.head = whEffMax c then whMin c else c.head + 1)

theorem whMin_whAdvance (c : CacheState) : whMin (whAdvance c) = whMin c := rfl

theorem whEffMax_whAdvance (c : CacheState) : whEffMax (whAdvance c) = whEffMax c := rfl

theorem head_whAdvance (c : CacheState) : (whAdvance c).head = whNext c := rfl

theorem tail_whAdvance (c : CacheState) : (whAdvance c).tail = whTailNew c := rfl

theorem tailInv_whAdvance_iff (c : CacheState) : tailInv (whAdvance c) ↔
    (whMin c ≤ whNext c ∧ whNext c ≤ whEffMax c ∧
     whTailNew c = (if whNext c = whEffMax c then whMin c else whNext c + 1)) := by
  unfold tailInv
  rw [whMin_whAdvance, whEffMax_whAdvance, head_whAdvance, tail_whAdvance]

theorem advance_establish (c : CacheState) (hlt : whMin c < whEffMax c)
    (hmax : whEffMax c + 1 < 2 ^ 64) (hwrap : whNext c = whMin c) :
    tailInv (whAdvance c) := by
  rw [tailInv_whAdvance_iff]
  refine ⟨by omega, by omega, ?_⟩
  unfold whTailNew
  rw [if_pos hwrap, hwrap, if_neg (by omega)]
  exact Nat.mod_eq_of_lt (by omega)

theorem advance_preserve (c : CacheState) (hlt : whMin c < whEffMax c)
    (hmax : whEffMax c + 1 < 2 ^ 64) (hinv : tailInv c) : tailInv (whAdvance c) := by
  obtain ⟨h1, h2, h3⟩ := hinv
  by_cases hend : c.head = whEffMax c
  · have hnext : whNext c = whMin c := by
      unfold whNext
      rw [hend, Nat.mod_eq_of_lt hmax, if_pos (by omega)]
    exact advance_establish c hlt hmax hnext
  · have hlt2 : c.head < whEffMax c := lt_of_le_of_ne h2 hend
    have hnext : whNext c = c.head + 1 := by
      unfold whNext
      rw [Nat.mod_eq_of_lt (by omega), if_neg (by omega)]
    rw [tailInv_whAdvance_iff, hnext]
    refine ⟨by omega, by omega, ?_⟩
    rw [if_neg hend] at h3
    unfold whTailNew
    rw [hnext, if_neg (by omega), if_pos (by rw [h3]; omega)]
    rw [Nat.mod_eq_of_lt (by omega)]
    by_cases htop : c.head + 1 + 1 > whEffMax c
    · rw [if_pos htop, if_pos (by omega)]
    · rw [if_neg htop, if_neg (by omega)]

theorem Write_ok_fields {c c' : CacheState} {id : Int} {p : List Nat} {fl : Bool}
    (h : Write c id p fl = .ok c') :
    c'.size = c.size ∧ c'.record = c.record ∧ c'.useMmap = c.useMmap ∧
    c'.minIDAlloc = c.minIDAlloc ∧ c'.maxIDAlloc = c.maxIDAlloc ∧
    c'.head = c.head ∧ c'.tail = c.tail ∧
    c'.statHits = c.statHits ∧ c'.statMisses = c.statMisses := by
  obtain ⟨rel, i, s, s', _, _, _, _, hc', _, _, _, _⟩ := Write_ok_spec h
  subst hc'
  exact ⟨rfl, rfl, rfl, rfl, rfl, rfl, rfl, rfl, rfl⟩

theorem tailInv_congr {c₁ c₂ : CacheState} (hh : c₁.head = c₂.head)
    (ht : c₁.tail = c₂.tail) (hm : c₁.minIDAlloc = c₂.minIDAlloc)
    (hx : c₁.maxIDAlloc = c₂.maxIDAlloc) (hs : c₁.size = c₂.size) :
    tailInv c₁ ↔ tailInv c₂ := by
  unfold tailInv whMin whEffMax
  rw [hh, ht, hm, hx, hs]

theorem WriteHead_state_eq (c : CacheState) (p : List Nat) (fl : Bool) :
    ((WriteHead c p fl).2).head = whNext c ∧
    ((WriteHead c p fl).2).tail = whTailNew c ∧
    ((WriteHead c p fl).2).minIDAlloc = c.minIDAlloc ∧
    ((WriteHead c p fl).2).maxIDAlloc = c.maxIDAlloc ∧
    ((WriteHead c p fl).2).size = c.size := by
  unfold WriteHead
  dsimp only
  cases hw : Write (whAdvance c) (int64OfUInt64 (whNext c)) p fl with
  | error e => exact ⟨rfl, rfl, rfl, rfl, rfl⟩
  | ok c2 =>
    obtain ⟨hsz, _, _, hm, hx, hh, ht, _, _⟩ := Write_ok_fields hw
    exact ⟨hh, ht, hm, hx, hsz⟩

theorem tailInv_WriteHead_iff (c : CacheState) (p : List Nat) (fl : Bool) :
    tailInv ((WriteHead c p fl).2) ↔ tailInv (whAdvance c) := by
  obtain ⟨hh, ht, hm, hx, hs⟩ := WriteHead_state_eq c p fl
  exact tailInv_congr hh ht hm hx hs

theorem whMin_WriteHead (c : CacheState) (p : List Nat) (fl : Bool) :
    whMin ((WriteHead c p fl).2) = whMin c := by
  obtain ⟨_, _, hm, _, _⟩ := WriteHead_state_eq c p fl
  unfold whMin
  rw [hm]

theorem whEffMax_WriteHead (c : CacheState) (p : List Nat) (fl : Bool) :
    whEffMax ((WriteHead c p fl).2) = whEffMax c := by
  obtain ⟨_, _, _, hx, hs⟩ := WriteHead_state_eq c p fl
  unfold whEffMax uint64OfInt
  rw [hx, hs]

theorem writeHeadSeq_inv (c : CacheState) (hlt : whMin c < whEffMax c)
    (hmax : whEffMax c + 1 < 2 ^ 64) (hinv : tailInv c) :
    ∀ calls : List (List Nat × Bool), tailInv (writeHeadSeq c calls) := by
  intro calls
  induction calls generalizing c with
  | nil => simpa [writeHeadSeq] using hinv
  | cons pf rest ih =>
    have h1 : tailInv ((WriteHead c pf.1 pf.2).2) :=
      (tailInv_WriteHead_iff c pf.1 pf.2).mpr (advance_preserve c hlt hmax hinv)
    have h2 : whMin ((WriteHead c pf.1 pf.2).2) < whEffMax ((WriteHead c pf.1 pf.2).2) := by
      rw [whMin_WriteHead, whEffMax_WriteHead]
      exact hlt
    have h3 : whEffMax ((WriteHead c pf.1 pf.2).2) + 1 < 2 ^ 64 := by
      rw [whEffMax_WriteHead]
      exact hmax
    exact ih _ h2 h3 h1

/-! ## BulkWrite lemmas -/

theorem Write_error_kinds {c : CacheState} {id : Int} {p : List Nat} {fl : Bool}
    {e : GErr} (h : Write c id p fl = .error e) :
    e ≠ .bulkRange ∧ e ≠ .bulkPayload := by
  unfold Write at h
  cases habs : absToRel c id with
  | error e' =>
    rw [habs] at h
    cases absToRel_error habs
    cases Except.error.inj h
    exact ⟨by simp, by simp⟩
  | ok rel =>
    rw [habs] at h
    dsimp only at h
    by_cases hlen : p.length ≠ c.record
    · rw [if_pos hlen] at h
      cases Except.error.inj h
      exact ⟨by simp, by simp⟩
    · rw [if_neg hlen] at h
      cases hfs : findShard c rel with
      | error e' =>
        rw [hfs] at h
        dsimp only at h
        cases Except.error.inj h
        rcases findShard_error hfs with h' | h' <;> cases h' <;> exact ⟨by simp, by simp⟩
      | ok i =>
        rw [hfs] at h
        dsimp only at h
        cases hget : c.shards[i]? with
        | none =>
          rw [hget] at h
          cases Except.error.inj h
          exact ⟨by simp, by simp⟩
        | some s =>
          rw [hget] at h
          dsimp only at h
          by_cases hmm : c.useMmap
          · rw [if_pos hmm] at h
            by_cases hb : (rel - 1).toNat * c.diskRec + c.diskRec ≤ s.len
            · rw [if_pos hb] at h
              exact absurd h (by simp)
            · rw [if_neg hb] at h
              cases Except.error.inj h
              exact ⟨by simp, by simp⟩
          · rw [if_neg hmm] at h
            exact absurd h (by simp)

theorem bulkWriteLoop_no_bulkErr (startID : Int) (flush : Bool) (n : Nat) :
    ∀ (ps : List (List Nat)) (c : CacheState) (i : Nat),
      (bulkWriteLoop startID flush n c ps i).1 ≠ some .bulkRange ∧
      (bulkWriteLoop startID flush n c ps i).1 ≠ some .bulkPayload := by
  intro ps
  induction ps with
  | nil => intro c i; exact ⟨by simp [bulkWriteLoop], by simp [bulkWriteLoop]⟩
  | cons p rest ih =>
    intro c i
    unfold bulkWriteLoop
    cases hw : Write c (startID + (i : Int)) p (flush && (i == n - 1)) with
    | error e =>
      obtain ⟨h1, h2⟩ := Write_error_kinds hw
      constructor
      · intro hcon
        exact h1 (Option.some.inj hcon)
      · intro hcon
        exact h2 (Option.some.inj hcon)
    | ok c2 => exact ih c2 (i + 1)

theorem bulkWriteLoop_eq_spec (flush : Bool) :
    ∀ (ps : List (List Nat)) (c : CacheState) (startID : Int) (i : Nat),
      bulkWriteLoop startID flush (i + ps.length) c ps i =
        bulkWriteSpecLoop flush c (startID + (i : Int)) ps := by
  intro ps
  induction ps with
  | nil => intro c startID i; rfl
  | cons p rest ih =>
    intro c startID i
    cases rest with
    | nil =>
      unfold bulkWriteLoop bulkWriteSpecLoop
      have hfl : (flush && (i == i + [p].length - 1)) = flush := by simp
      rw [hfl]
      cases hw : Write c (startID + (i : Int)) p flush with
      | error e => rfl
      | ok c2 => rfl
    | cons q rest2 =>
      unfold bulkWriteLoop bulkWriteSpecLoop
      have hne : (i == i + (p :: q :: rest2).length - 1) = false := by
        rw [beq_eq_false_iff_ne]
        simp only [List.length_cons]
        omega
      rw [hne, Bool.and_false]
      cases hw : Write c (startID + (i : Int)) p false with
      | error e => rfl
      | ok c2 =>
        have h1 : i + (p :: q :: rest2).length = (i + 1) + (q :: rest2).length := by
          simp only [List.length_cons]
          omega
        rw [h1]
        have hrec := ih c2 startID (i + 1)
        rw [Nat.cast_add, Nat.cast_one] at hrec
        rw [show startID + ((i : Int) + 1) = startID + (i : Int) + 1 from
          (add_assoc startID (i : Int) 1).symm] at hrec
        exact hrec

/-! ## Constructor lemmas -/

theorem newCache_fresh_head_tail {opts : CacheOptions} {c : CacheState}
    (hmin : 1 ≤ opts.minIDAlloc) (hmin63 : opts.minIDAlloc < 2 ^ 63)
    (hok : NewRingBufferCacheWithOptions opts none none = .ok c) :
    c.head = (opts.minIDAlloc - 1).toNat ∧ c.tail = opts.minIDAlloc.toNat ∧
    Head c = opts.minIDAlloc - 1 ∧ Tail c = opts.minIDAlloc := by
  have hmod : opts.minIDAlloc % (2 : Int) ^ 64 = opts.minIDAlloc := by omega
  have hstart : uint64OfInt opts.minIDAlloc = opts.minIDAlloc.toNat := by
    unfold uint64OfInt
    rw [hmod]
  have hstartpos : 1 ≤ opts.minIDAlloc.toNat := by omega
  unfold NewRingBufferCacheWithOptions at hok
  by_cases h1 : opts.recordSize ≤ 0
  · rw [if_pos h1] at hok; exact absurd hok (by simp)
  · rw [if_neg h1] at hok
    by_cases h2 : opts.maxIDAlloc ≤ opts.minIDAlloc
    · rw [if_pos h2] at hok; exact absurd hok (by simp)
    · rw [if_neg h2] at hok
      dsimp only [verifyOrWriteConfig] at hok
      by_cases hsc : opts.shardCount ≤ 0
      · rw [if_pos hsc] at hok
        dsimp only at hok
        split at hok
        · exact absurd hok (by simp)
        · cases Except.ok.inj hok
          refine ⟨?_, ?_, ?_, ?_⟩
          · dsimp only
            rw [hstart, if_neg (by omega)]
            omega
          · dsimp only
            rw [hstart, if_neg (by omega)]
          · dsimp only [Head, int64OfUInt64]
            rw [hstart, if_neg (show ¬ opts.minIDAlloc.toNat = 0 by omega),
              if_pos (show opts.minIDAlloc.toNat - 1 < 2 ^ 63 by omega)]
            omega
          · dsimp only [Tail, int64OfUInt64]
            rw [hstart, if_neg (show ¬ opts.minIDAlloc.toNat = 0 by omega),
              if_pos (show opts.minIDAlloc.toNat < 2 ^ 63 by omega)]
            omega
      · rw [if_neg hsc] at hok
        split at hok
        · exact absurd hok (by simp)
        · cases Except.ok.inj hok
          refine ⟨?_, ?_, ?_, ?_⟩
          · dsimp only
            rw [hstart, if_neg (by omega)]
            omega
          · dsimp only
            rw [hstart, if_neg (by omega)]
          · dsimp only [Head, int64OfUInt64]
            rw [hstart, if_neg (show ¬ opts.minIDAlloc.toNat = 0 by omega),
              if_pos (show opts.minIDAlloc.toNat - 1 < 2 ^ 63 by omega)]
            omega
          · dsimp only [Tail, int64OfUInt64]
            rw [hstart, if_neg (show ¬ opts.minIDAlloc.toNat = 0 by omega),
              if_pos (show opts.minIDAlloc.toNat < 2 ^ 63 by omega)]
            omega

/-! ## Concrete fixtures used by closed theorems and witnesses -/

/-- The error of a fallible result, if any. -/
def errOf (e : Except GErr CacheState) : Option GErr :=
  match e with
  | .ok _ => none
  | .error g => some g

/-- Options of the spec's advance-head wrap scenario: min 3, max 5,
1-byte records, one shard, no mmap. -/
def optsWrap : CacheOptions :=
  { minIDAlloc := 3, maxIDAlloc := 5, useMmap := false, shardCount := 1,
    shardSize := 0, recordSize := 1, bufferPoolSize := 0, prefetchSize := 0 }

/-- Fresh engine over `optsWrap`. -/
def stWrap : CacheState :=
  getOk (NewRingBufferCacheWithOptions optsWrap none none) dummyCache

/-- `stWrap` after one advance-head call (head 3, tail 4: wrapped phase). -/
def stWrapped : CacheState := (WriteHead stWrap [7] false).2

/-- `stWrap` after writing payload `[42]` at id 4. -/
def stWritten : CacheState := getOk (Write stWrap 4 [42] false) dummyCache

/-- Options of the repository's own write-panic test, scaled to 4-byte
records: min 1, max 10, two shards of 5 slots each, mmap on. -/
def optsShard2 : CacheOptions :=
  { minIDAlloc := 1, maxIDAlloc := 10, useMmap := true, shardCount := 2,
    shardSize := 0, recordSize := 4, bufferPoolSize := 0, prefetchSize := 0 }

/-- Fresh engine over `optsShard2`. -/
def stShard2 : CacheState :=
  getOk (NewRingBufferCacheWithOptions optsShard2 none none) dummyCache

/-- Options with a minimum id different from 1: min 10, max 15. -/
def optsMid : CacheOptions :=
  { minIDAlloc := 10, maxIDAlloc := 15, useMmap := false, shardCount := 1,
    shardSize := 0, recordSize := 1, bufferPoolSize := 0, prefetchSize := 0 }

/-- Fresh engine over `optsMid`. -/
def stMid : CacheState :=
  getOk (NewRingBufferCacheWithOptions optsMid none none) dummyCache

/-- Options with the permitted minimum id 0. -/
def optsZero : CacheOptions :=
  { minIDAlloc := 0, maxIDAlloc := 5, useMmap := false, shardCount := 1,
    shardSize := 0, recordSize := 1, bufferPoolSize := 0, prefetchSize := 0 }

/-- Fresh engine over `optsZero`. -/
def stZero : CacheState :=
  getOk (NewRingBufferCacheWithOptions optsZero none none) dummyCache

/-- A persisted `.cfg` descriptor with record size 8. -/
def cfg8 : PersistedConfig :=
  { recordSize := 8, minIDAlloc := 1, maxIDAlloc := 10, shardCount := 1 }

/-- A persisted `.cfg` descriptor with record size 8 and max id 20. -/
def cfg20 : PersistedConfig :=
  { recordSize := 8, minIDAlloc := 1, maxIDAlloc := 20, shardCount := 1 }

/-- Caller options on reopen: record size 16 over the same path. -/
def optsR16 : CacheOptions :=
  { minIDAlloc := 1, maxIDAlloc := 10, useMmap := false, shardCount := 1,
    shardSize := 0, recordSize := 16, bufferPoolSize := 0, prefetchSize := 0 }

/-- Engine reopened over the `cfg8` sidecar with `optsR16`. -/
def stCfg8 : CacheState :=
  getOk (NewRingBufferCacheWithOptions optsR16 (some cfg8) none) dummyCache

/-- Engine reopened over the `cfg20` sidecar with `optsR16`. -/
def stCfg20 : CacheState :=
  getOk (NewRingBufferCacheWithOptions optsR16 (some cfg20) none) dummyCache



/-! ## Claim theorems -/

/-- C1: the claim says the byte offset within a shard is
`(rel − shard.offset − 1) × on_disk_slot_bytes`, so every slot lies inside
its shard's file.  The code instead computes `(rel − 1) × diskRec` — the
engine-relative offset — and uses it directly inside the found shard.
At min 1, max 10, two shards, record 4 (the configuration of the
repository's own `TestWritePanicsWhenOffsetExceedsShard`), id 6 routes to
shard 1 (offset 5, file length 40) but its bytes are placed at
byte 40 = (6−1)×8, entirely outside that shard's 40-byte file, and the
memory-mapped write is a slice-bounds panic; the spec's shard-relative
offset (6−5−1)×8 = 0 would fit.  The claim is right and the code wrong
(the repo's test documents the panic as a known bug). -/
theorem claim_C1_shard_offset_bug :
    isOkE (NewRingBufferCacheWithOptions optsShard2 none none) = true ∧
    absToRel stShard2 6 = .ok 6 ∧
    findShard stShard2 6 = .ok 1 ∧
    shardOffsetAt stShard2 1 = 5 ∧
    shardLenAt stShard2 1 = 40 ∧
    ((6 : Int) - 1).toNat * stShard2.diskRec = 40 ∧
    ((6 : Int) - 5 - 1).toNat * stShard2.diskRec + stShard2.diskRec ≤
      shardLenAt stShard2 1 ∧
    shardLenAt stShard2 1 < ((6 : Int) - 1).toNat * stShard2.diskRec +
      stShard2.diskRec ∧
    errOf (Write stShard2 6 [1, 2, 3, 4] false) = some .panicOOB := by
  refine ⟨rfl, rfl, rfl, rfl, rfl, rfl, by decide, by decide, rfl⟩

/-- C2: for every id and payload of the configured record size, a
successful `Write` followed by `Read` of the same id returns a byte-equal
payload (the stored CRC of the written bytes re-validates and the stored
payload bytes are returned unchanged). -/
theorem claim_C2_write_read_roundtrip (c c' : CacheState) (id : Int)
    (p : List Nat) (fl : Bool) (hp : ∀ b ∈ p, b < 256)
    (hw : Write c id p fl = .ok c') :
    (Read c' id).1 = .ok p :=
  Read_after_Write hp hw

theorem claim_C2_witness :
    Write stWrap 4 [42] false = .ok stWritten ∧
    (Read stWritten 4).1 = .ok [42] :=
  ⟨rfl, claim_C2_write_read_roundtrip stWrap stWritten 4 [42] false (by decide) rfl⟩

/-- C3: the claim says that on reopen the persisted `.cfg` descriptor
replaces the caller's options and the whole layout is derived from the
persisted values.  The code does overwrite the options, but only after
`size`, `recordSize`, `diskRec` and `shardSize` were already computed
from the caller's values, so the layout follows the caller, not the
sidecar: reopening a record-size-8 store with record size 16 yields an
engine with record 16 and a 10×20-byte shard file, and a persisted max
id 20 against caller max 10 yields slot count 10 with id range up to 20.
The spec (and the code's own comment, "override supplied opts with
persisted values to ensure consistency") is the intent; the code computes
the layout before the override — a bug. -/
theorem claim_C3_config_override_bug :
    isOkE (NewRingBufferCacheWithOptions optsR16 (some cfg8) none) = true ∧
    cfg8.recordSize = 8 ∧
    stCfg8.record = 16 ∧
    stCfg8.diskRec = 20 ∧
    shardLenAt stCfg8 0 = 200 ∧
    stCfg8.minIDAlloc = 1 ∧
    stCfg8.maxIDAlloc = 10 ∧
    (stCfg8.record : Int) ≠ cfg8.recordSize ∧
    stCfg20.size = 10 ∧
    stCfg20.maxIDAlloc = 20 := by
  refine ⟨rfl, rfl, rfl, rfl, rfl, rfl, rfl, by decide, rfl, rfl⟩

/-- C4: once an advance-head call computes `next = MinID` (a wrap), the
invariant "tail is the ring successor of head" (tail = head + 1, with
tail = MinID when head = MaxID) holds after that call and after every
subsequent sequence of advance-head calls — the wrapped phase is never
left. -/
theorem claim_C4_tail_invariant (c : CacheState) (p : List Nat) (fl : Bool)
    (hlt : whMin c < whEffMax c) (hmax : whEffMax c + 1 < 2 ^ 64) :
    (whNext c = whMin c → tailInv ((WriteHead c p fl).2)) ∧
    (tailInv c → ∀ calls : List (List Nat × Bool),
      tailInv (writeHeadSeq c calls)) := by
  constructor
  · intro hwrap
    exact (tailInv_WriteHead_iff c p fl).mpr (advance_establish c hlt hmax hwrap)
  · intro hinv calls
    exact writeHeadSeq_inv c hlt hmax hinv calls

instance (c : CacheState) : Decidable (tailInv c) := by
  unfold tailInv
  infer_instance

theorem claim_C4_witness :
    tailInv stWrapped ∧
    tailInv (writeHeadSeq stWrapped [([7], false), ([7], false), ([7], false)]) :=
  ⟨by decide,
   (claim_C4_tail_invariant stWrapped [7] false (by decide) (by decide)).2
     (by decide) [([7], false), ([7], false), ([7], false)]⟩

/-- C5: every advance-head call computes `next = head + 1`, resets it to
MinID when it exceeds the effective MaxID, stores it as the new head,
performs the `Write` at identifier `next` and returns `next` on success;
with min 3 and max 5, four successive calls return ids 3, 4, 5, 3 and
leave the head at 3. -/
theorem claim_C5_advance_head (c : CacheState) (p : List Nat) (fl : Bool)
    (h64 : c.head + 1 < 2 ^ 64) :
    whNext c = (if c.head + 1 > whEffMax c then whMin c else c.head + 1) ∧
    ((WriteHead c p fl).2).head = whNext c ∧
    (∀ c2, Write (whAdvance c) (int64OfUInt64 (whNext c)) p fl = .ok c2 →
      WriteHead c p fl = ((int64OfUInt64 (whNext c), none), c2)) ∧
    writeHeadRuns stWrap (List.replicate 4 ([7], false)) = [3, 4, 5, 3] ∧
    Head (writeHeadSeq stWrap (List.replicate 4 ([7], false))) = 3 := by
  refine ⟨?_, (WriteHead_state_eq c p fl).1, ?_, by decide, by decide⟩
  · unfold whNext
    rw [Nat.mod_eq_of_lt h64]
  · intro c2 hw
    unfold WriteHead
    dsimp only
    rw [hw]

theorem claim_C5_witness :
    WriteHead stWrap [7] false =
      ((int64OfUInt64 (whNext stWrap), none),
        getOk (Write (whAdvance stWrap) (int64OfUInt64 (whNext stWrap)) [7] false)
          dummyCache) ∧
    ((WriteHead stWrap [7] false).2).head = whNext stWrap :=
  ⟨(claim_C5_advance_head stWrap [7] false (by decide)).2.2.1 _ rfl,
   (claim_C5_advance_head stWrap [7] false (by decide)).2.1⟩



/-- C6 counterexample: the claim says BulkWrite fails with the
out-of-bounds error exactly when startID < 1 or
startID + len − 1 > MaxID, for every configured MinID.  With MinID = 10,
MaxID = 15, the call BulkWrite(12, [p]) satisfies the claim's bound
(1 ≤ 12 and 12 + 1 − 1 = 12 ≤ 15) yet fails with the out-of-bounds
error, because the code compares against `c.size` = MaxID − MinID + 1 = 6. -/
theorem claim_C6_counterexample :
    stMid.minIDAlloc = 10 ∧ stMid.maxIDAlloc = 15 ∧ stMid.size = 6 ∧
    (1 : Int) ≤ 12 ∧ (12 : Int) + (1 : Int) - 1 ≤ 15 ∧
    (BulkWrite stMid 12 [[7]] false).1 = some .bulkRange := by
  refine ⟨rfl, rfl, rfl, by decide, by decide, ?_⟩
  rfl

/-- C6 (amended): BulkWrite fails with its out-of-bounds error exactly
when startID < 1 or startID + len − 1 > `c.size` = MaxID − MinID + 1
(this equals the claim's MaxID bound only when MinID = 1); within bounds
it first checks every payload's length (failing with the payload-size
error and writing nothing), and otherwise writes the payloads
sequentially at consecutive identifiers, requesting durability only on
the last one. -/
theorem claim_C6_bulkwrite_amended (c : CacheState) (startID : Int)
    (ps : List (List Nat)) (fl : Bool) :
    ((BulkWrite c startID ps fl).1 = some .bulkRange ↔
      startID < 1 ∨ startID + (ps.length : Int) - 1 > c.size) ∧
    (¬ (startID < 1 ∨ startID + (ps.length : Int) - 1 > c.size) →
      (∃ p ∈ ps, p.length ≠ c.record) →
      BulkWrite c startID ps fl = (some .bulkPayload, c)) ∧
    (¬ (startID < 1 ∨ startID + (ps.length : Int) - 1 > c.size) →
      (∀ p ∈ ps, p.length = c.record) →
      BulkWrite c startID ps fl = bulkWriteSpecLoop fl c startID ps) := by
  refine ⟨⟨?_, ?_⟩, ?_, ?_⟩
  · intro h
    by_contra hcon
    unfold BulkWrite at h
    rw [if_neg hcon] at h
    by_cases hany : ps.any (fun p => p.length != c.record)
    · rw [if_pos hany] at h
      exact absurd (Option.some.inj h) (by simp)
    · rw [if_neg hany] at h
      exact (bulkWriteLoop_no_bulkErr startID fl ps.length ps c 0).1 h
  · intro h
    unfold BulkWrite
    rw [if_pos h]
  · intro hb hex
    unfold BulkWrite
    rw [if_neg hb, if_pos ?hany]
    case hany =>
      rw [List.any_eq_true]
      obtain ⟨p, hmem, hne⟩ := hex
      exact ⟨p, hmem, by simpa using hne⟩
  · intro hb hall
    unfold BulkWrite
    rw [if_neg hb, if_neg ?hnone]
    case hnone =>
      rw [Bool.not_eq_true, List.any_eq_false]
      intro p hmem
      simpa using hall p hmem
    have heq := bulkWriteLoop_eq_spec fl ps c startID 0
    simpa using heq

theorem claim_C6_witness :
    BulkWrite stMid 2 [[7], [8, 9]] false = (some .bulkPayload, stMid) ∧
    BulkWrite stMid 3 [[7]] false = bulkWriteSpecLoop false stMid 3 [[7]] :=
  ⟨(claim_C6_bulkwrite_amended stMid 2 [[7], [8, 9]] false).2.1 (by decide)
     ⟨[8, 9], by decide, by decide⟩,
   (claim_C6_bulkwrite_amended stMid 3 [[7]] false).2.2 (by decide)
     (by decide)⟩

/-- C7: after a successful Write, changing any single payload byte of
that slot on disk (any byte at offset ≥ 4 within the slot) to a
different value makes a subsequent Read of that identifier fail with the
CRC-mismatch (CorruptSlot) error, rather than return the altered
payload: CRC-32 detects every single-byte change. -/
theorem claim_C7_corruption_detected (c c' : CacheState) (id : Int)
    (p : List Nat) (fl : Bool) (rel : Int) (i j v : Nat)
    (hp : ∀ b ∈ p, b < 256) (hv : v < 256)
    (hw : Write c id p fl = .ok c')
    (habs : absToRel c id = .ok rel) (hfs : findShard c rel = .ok i)
    (hj4 : 4 ≤ j) (hjd : j < c.diskRec)
    (hne : v ≠ slotByte c' i ((rel - 1).toNat * c.diskRec + j)) :
    (Read (corruptByte c' i ((rel - 1).toNat * c.diskRec + j) v) id).1 =
      .error .corrupt :=
  Read_after_corrupt hp hv hw habs hfs hj4 hjd hne

theorem claim_C7_witness :
    slotByte stWritten 0 (((2 : Int) - 1).toNat * stWrap.diskRec + 4) = 42 ∧
    (Read (corruptByte stWritten 0
      (((2 : Int) - 1).toNat * stWrap.diskRec + 4) 1) 4).1 = .error .corrupt :=
  ⟨rfl,
   claim_C7_corruption_detected stWrap stWritten 4 [42] false 2 0 4 1
     (by decide) (by decide) rfl rfl rfl (by decide) (by decide) (by decide)⟩

/-- C8 counterexample: the claim says a fresh store has
head = MinID − 1 and tail = MinID for every permitted MinID, including
MinID = 0.  MinID = 0 is accepted by the constructor, but the code
replaces a zero start with 1, so the fresh engine has head = 0 and
tail = 1 instead of head = −1 and tail = 0. -/
theorem claim_C8_counterexample :
    isOkE (NewRingBufferCacheWithOptions optsZero none none) = true ∧
    optsZero.minIDAlloc = 0 ∧
    Head stZero = 0 ∧ Tail stZero = 1 ∧
    Head stZero ≠ optsZero.minIDAlloc - 1 ∧ Tail stZero ≠ optsZero.minIDAlloc := by
  refine ⟨rfl, rfl, rfl, rfl, by decide, by decide⟩

/-- C8 (amended): on a fresh store (no readable meta sidecar) the engine
initializes head = MinID − 1 and tail = MinID for every permitted
MinID ≥ 1; at the permitted MinID = 0 the code substitutes a start of 1,
yielding head = 0 and tail = 1. -/
theorem claim_C8_fresh_init_amended (opts : CacheOptions) (c : CacheState)
    (hmin : 1 ≤ opts.minIDAlloc) (hmin63 : opts.minIDAlloc < 2 ^ 63)
    (hok : NewRingBufferCacheWithOptions opts none none = .ok c) :
    Head c = opts.minIDAlloc - 1 ∧ Tail c = opts.minIDAlloc ∧
    c.head = (opts.minIDAlloc - 1).toNat ∧ c.tail = opts.minIDAlloc.toNat := by
  obtain ⟨h1, h2, h3, h4⟩ := newCache_fresh_head_tail hmin hmin63 hok
  exact ⟨h3, h4, h1, h2⟩

theorem claim_C8_witness :
    Head stWrap = 2 ∧ Tail stWrap = 3 :=
  ⟨(claim_C8_fresh_init_amended optsWrap stWrap (by decide) (by decide) rfl).1,
   (claim_C8_fresh_init_amended optsWrap stWrap (by decide) (by decide) rfl).2.1⟩

/-- C9: every Read that returns a payload increments the hit counter by
exactly one and leaves the miss counter unchanged; every Read failing
with the CRC-mismatch (CorruptSlot) or I/O error increments the miss
counter by exactly one and leaves the hit counter unchanged; Reads that
fail validation or routing change neither.  The statement covers both
the memory-mapped and the syscall path (`c.useMmap` is arbitrary). -/
theorem claim_C9_stats_accounting (c : CacheState) (id : Int) :
    (Read c id).2.statHits = c.statHits + hitDelta (Read c id).1 ∧
    (Read c id).2.statMisses = c.statMisses + missDelta (Read c id).1 :=
  Read_stats c id

/-- C10: WriteHead (AdvanceHead) mutates head and tail before the
underlying Write; when that Write fails, the call returns id 0 with the
error, head and tail keep their advanced values (no rollback), no shard
byte changes, and a subsequent Head() reports the advanced position. -/
theorem claim_C10_no_rollback (c : CacheState) (p : List Nat) (fl : Bool)
    (e : GErr)
    (hfail : Write (whAdvance c) (int64OfUInt64 (whNext c)) p fl = .error e) :
    WriteHead c p fl = ((0, some e), whAdvance c) ∧
    (whAdvance c).head = whNext c ∧ (whAdvance c).tail = whTailNew c ∧
    ((WriteHead c p fl).2).shards = c.shards ∧
    Head ((WriteHead c p fl).2) = int64OfUInt64 (whNext c) := by
  have hW : WriteHead c p fl = ((0, some e), whAdvance c) := by
    unfold WriteHead
    dsimp only
    rw [hfail]
  refine ⟨hW, rfl, rfl, ?_, ?_⟩
  · rw [hW]
    rfl
  · rw [hW]
    rfl

theorem claim_C10_witness :
    WriteHead stWrap [] false = ((0, some .payloadSize), whAdvance stWrap) ∧
    ((WriteHead stWrap [] false).2).shards = stWrap.shards :=
  ⟨(claim_C10_no_rollback stWrap [] false .payloadSize rfl).1,
   (claim_C10_no_rollback stWrap [] false .payloadSize rfl).2.2.2.1⟩

end GoCacheArchive
